import Mathlib

set_option maxRecDepth 16384

/-!
Verification of the osc FAT32 reader (`src/osc-fat/src/lib.rs`) against its
natural-language specification.

The Rust code is shallowly embedded: byte slices become `List Nat` (each
element a byte value), machine integers become `Nat` with explicit
`% 2 ^ 32` where u32 wrap-around matters, fallible or panicking code
returns `Option` (with `none` standing for a panic), and the block device
is a record carrying its block size, its number of available blocks and a
byte-content function, mirroring `block_device::virt::FileBlockDevice`.
-/

namespace Osc

/-- A block device, modelled after the `BlockDevice` trait and its only
implementation `FileBlockDevice` in `src/osc-fat/src/lib.rs`: a fixed
block size, a number of available blocks, and the byte content of the
backing store. -/
structure BlockDevice where
  blockSize : Nat
  totalBlocks : Nat
  byteAt : Nat → Nat

/-- Rust `FileBlockDevice::read_blocks`: reads `min(available, dest_len / block_size)`
consecutive blocks starting at `startBlock` and returns how many blocks were
read together with the bytes that fill the front of the destination. -/
def BlockDevice.readBlocks (d : BlockDevice) (startBlock : Nat) (destLen : Nat) :
    Nat × List Nat :=
  let destBlocks := destLen / d.blockSize
  let avail := d.totalBlocks - startBlock
  let count := min avail destBlocks
  (count, (List.range (count * d.blockSize)).map fun j =>
    d.byteAt (startBlock * d.blockSize + j))

/-- The `len` device bytes starting at absolute byte offset `start`. -/
def BlockDevice.bytesFrom (d : BlockDevice) (start len : Nat) : List Nat :=
  (List.range len).map fun j => d.byteAt (start + j)

/-- The content of the sector with absolute index `i`, for sector size `ssb`. -/
def sectorBytes (d : BlockDevice) (ssb i : Nat) : List Nat :=
  d.bytesFrom (i * ssb) ssb

/-! ## `fat::prim` — FAT32 table entry decoding -/

/-- Rust `u32::from_le_bytes` over four bytes of a slice starting at `off`
(out-of-range positions default to 0; the callers below bound-check first,
 mirroring the panicking slice index in Rust). -/
def u32le (data : List Nat) (off : Nat) : Nat :=
  data.getD off 0 + data.getD (off + 1) 0 * 256 +
    data.getD (off + 2) 0 * 65536 + data.getD (off + 3) 0 * 16777216

/-- Rust `FileAllocationTable32Result`. -/
inductive FileAllocationTable32Result where
  | NextClusterIndex : Nat → FileAllocationTable32Result
  | BadCluster : FileAllocationTable32Result
  | EndOfChain : FileAllocationTable32Result
deriving DecidableEq, Repr

/-- Rust `impl From<u32> for FileAllocationTable32Result`. -/
def fatResultFromU32 (other : Nat) : FileAllocationTable32Result :=
  if 0x0FFFFFF8 ≤ other then .EndOfChain
  else if other = 0x0FFFFFF7 then .BadCluster
  else .NextClusterIndex other

/-- The decode of a raw 32-bit FAT word as performed by
`FileAllocationTable32::get_entry`: mask to the low 28 bits, then convert. -/
def fatDecode (raw : Nat) : FileAllocationTable32Result :=
  fatResultFromU32 (raw &&& 0x0FFFFFFF)

/-- Rust `FileAllocationTable32::get_entry`: read the little-endian u32 at
`entryByteOffset` and decode it.  `none` models the Rust panic when the
4-byte range falls outside the sector. -/
def fatGetEntry (data : List Nat) (entryByteOffset : Nat) :
    Option FileAllocationTable32Result :=
  if entryByteOffset + 4 ≤ data.length then
    some (fatDecode (u32le data entryByteOffset))
  else none

/-- Rust `prim::first_sector_of_cluster` — u32 arithmetic
`((cluster - 2) * sectors_per_cluster) + first_data_sector`, with the u32
wrap-around of the subtraction made explicit. -/
def firstSectorOfCluster (cluster sectorsPerCluster firstDataSector : Nat) : Nat :=
  (((cluster + 4294967294) % 4294967296) * sectorsPerCluster + firstDataSector) %
    4294967296

/-! ## Claim C1 -/

theorem fatDecode_mask_idem (raw : Nat) :
    fatDecode (raw &&& 0x0FFFFFFF) = fatDecode raw := by
  unfold fatDecode
  rw [Nat.land_assoc]
  norm_num

/-- C1: FAT32 entry decoding first masks to the low 28 bits, so
`decode(raw) = decode(raw & 0x0FFFFFFF)`; masked value `0x0FFFFFF7`
decodes to `BadCluster`, every masked value `≥ 0x0FFFFFF8` decodes to
`EndOfChain`, and every other masked value `v` (including `0x0FFFFFF6`)
decodes to `NextClusterIndex v`. -/
theorem claim_C1_fat_entry_decoding (raw : Nat) (h32 : raw < 4294967296) :
    fatDecode raw = fatDecode (raw &&& 0x0FFFFFFF) ∧
    (raw &&& 0x0FFFFFFF = 0x0FFFFFF7 → fatDecode raw = .BadCluster) ∧
    (0x0FFFFFF8 ≤ raw &&& 0x0FFFFFFF → fatDecode raw = .EndOfChain) ∧
    (raw &&& 0x0FFFFFFF ≠ 0x0FFFFFF7 → raw &&& 0x0FFFFFFF < 0x0FFFFFF8 →
      fatDecode raw = .NextClusterIndex (raw &&& 0x0FFFFFFF)) ∧
    fatDecode 0x0FFFFFF6 = .NextClusterIndex 0x0FFFFFF6 := by
  refine ⟨(fatDecode_mask_idem raw).symm, ?_, ?_, ?_, by decide⟩
  · intro hm
    unfold fatDecode fatResultFromU32
    rw [hm]
    decide
  · intro hm
    unfold fatDecode fatResultFromU32
    rw [if_pos hm]
  · intro hne hlt
    unfold fatDecode fatResultFromU32
    rw [if_neg (by omega), if_neg hne]

theorem claim_C1_fat_entry_decoding_witness :
    (0xF0000003 : Nat) < 4294967296 ∧
    (fatDecode 0xF0000003 = fatDecode (0xF0000003 &&& 0x0FFFFFFF) ∧
    ((0xF0000003 : Nat) &&& 0x0FFFFFFF = 0x0FFFFFF7 →
      fatDecode 0xF0000003 = .BadCluster) ∧
    (0x0FFFFFF8 ≤ (0xF0000003 : Nat) &&& 0x0FFFFFFF →
      fatDecode 0xF0000003 = .EndOfChain) ∧
    ((0xF0000003 : Nat) &&& 0x0FFFFFFF ≠ 0x0FFFFFF7 →
      (0xF0000003 : Nat) &&& 0x0FFFFFFF < 0x0FFFFFF8 →
      fatDecode 0xF0000003 = .NextClusterIndex (0xF0000003 &&& 0x0FFFFFFF)) ∧
    fatDecode 0x0FFFFFF6 = .NextClusterIndex 0x0FFFFFF6) :=
  ⟨by decide, claim_C1_fat_entry_decoding 0xF0000003 (by decide)⟩

/-! ## `fat::ReadBuffer` -/

/-- Rust `ReadBuffer`: a caller-supplied byte buffer backed by the shared block
device, remembering which absolute sectors currently reside in it
(`loaded_sectors: Option<Range<u64>>`, modelled as a half-open pair). -/
structure ReadBuffer where
  dev : BlockDevice
  buffer : List Nat
  sectorSizeBytes : Nat
  loadedSectors : Option (Nat × Nat)

/-- Rust `ReadBuffer::new`. -/
def ReadBuffer.new (dev : BlockDevice) (buffer : List Nat)
    (sectorSizeBytes : Nat) : ReadBuffer :=
  ⟨dev, buffer, sectorSizeBytes, none⟩

/-- Rust `ReadBuffer::sector_range`: the byte range of sector `i` inside the
buffer, given the first loaded sector. -/
def ReadBuffer.sectorRangeOf (ssb loadedStart i : Nat) : Nat × Nat :=
  ((i - loadedStart) * ssb, (i - loadedStart) * ssb + ssb)

/-- Rust `ReadBuffer::read_block_for_sector`: compute the block containing the
desired sector, read as many blocks as fit into the buffer, record the
loaded sector range and return the byte range of the desired sector.
`none` models the `assert_ne!(0, sectors_read)` panic. -/
def ReadBuffer.readBlockForSector (rb : ReadBuffer) (i : Nat) :
    Option (ReadBuffer × (Nat × Nat)) :=
  let bs := rb.dev.blockSize
  let ssb := rb.sectorSizeBytes
  let blockIndex := i * ssb / bs
  let res := rb.dev.readBlocks blockIndex rb.buffer.length
  let sectorsRead := res.1 * bs / ssb
  if sectorsRead = 0 then none
  else
    let firstSector := blockIndex * bs / ssb
    some
      ({ rb with
          buffer := res.2 ++ rb.buffer.drop res.2.length
          loadedSectors := some (firstSector, firstSector + sectorsRead) },
       ReadBuffer.sectorRangeOf ssb firstSector i)

/-- Rust `ReadBuffer::ensure_sector_prime`.  The extra `Nat` counts the
`read_blocks` calls issued (0 on a cache hit, 1 on a refill). -/
def ReadBuffer.ensureSectorPrime (rb : ReadBuffer) (i : Nat) :
    Option (ReadBuffer × (Nat × Nat) × Nat) :=
  match rb.loadedSectors with
  | some (lo, hi) =>
    if lo ≤ i ∧ i < hi then
      some (rb, ReadBuffer.sectorRangeOf rb.sectorSizeBytes lo i, 0)
    else (rb.readBlockForSector i).map fun p => (p.1, p.2, 1)
  | none => (rb.readBlockForSector i).map fun p => (p.1, p.2, 1)

/-- Rust `ReadBuffer::ensure_sector` (returned byte range discarded). -/
def ReadBuffer.ensureSector (rb : ReadBuffer) (i : Nat) :
    Option (ReadBuffer × Nat) :=
  (rb.ensureSectorPrime i).map fun p => (p.1, p.2.2)

/-- Rust `ReadBuffer::get_sector`: ensure the sector is loaded and return its
bytes (Rust returns `&buffer[range]`; the list slice truncates instead of
panicking, and in all states reached in the proofs below the range is in
bounds). -/
def ReadBuffer.getSector (rb : ReadBuffer) (i : Nat) :
    Option (ReadBuffer × List Nat × Nat) :=
  (rb.ensureSectorPrime i).map fun p =>
    (p.1, (p.1.buffer.drop p.2.1.1).take (p.2.1.2 - p.2.1.1), p.2.2)

/-- Rust `ReadBuffer::get_loaded_sector`: non-mutating; `some` iff the sector is
currently resident. -/
def ReadBuffer.getLoadedSector (rb : ReadBuffer) (i : Nat) : Option (List Nat) :=
  match rb.loadedSectors with
  | some (lo, hi) =>
    if lo ≤ i ∧ i < hi then
      some ((rb.buffer.drop ((i - lo) * rb.sectorSizeBytes)).take rb.sectorSizeBytes)
    else none
  | none => none

/-- The loaded sector range of the buffer contains sector `i`. -/
def ReadBuffer.inLoaded (rb : ReadBuffer) (i : Nat) : Prop :=
  ∃ lo hi, rb.loadedSectors = some (lo, hi) ∧ lo ≤ i ∧ i < hi

theorem ensureSector_of_inLoaded {rb : ReadBuffer} {i : Nat}
    (h : rb.inLoaded i) : rb.ensureSector i = some (rb, 0) := by
  obtain ⟨lo, hi, hls, hle, hlt⟩ := h
  simp [ReadBuffer.ensureSector, ReadBuffer.ensureSectorPrime, hls, hle, hlt]

/-- Arithmetic behind the refill: when one of the sector/block sizes
divides the other (both are powers of two in any valid configuration) and
at least one whole sector was read, the loaded range
`[firstSector, firstSector + sectorsRead)` contains the desired sector. -/
theorem refill_covers {bs ssb cnt i : Nat} (hbs : 0 < bs) (hssb : 0 < ssb)
    (hdiv : ssb ∣ bs ∨ bs ∣ ssb) (hz : cnt * bs / ssb ≠ 0) :
    i * ssb / bs * bs / ssb ≤ i ∧
      i < i * ssb / bs * bs / ssb + cnt * bs / ssb := by
  rcases hdiv with ⟨m, hm⟩ | ⟨k, hk⟩
  · have hm0 : 0 < m := by
      rcases Nat.eq_zero_or_pos m with h0 | h0
      · rw [h0, Nat.mul_zero] at hm; omega
      · exact h0
    have h1 : i * ssb / bs = i / m := by
      rw [hm, show ssb * m = m * ssb by ring, Nat.mul_div_mul_right i m hssb]
    have h2 : i * ssb / bs * bs / ssb = i / m * m := by
      rw [h1, hm, show i / m * (ssb * m) = i / m * m * ssb by ring,
        Nat.mul_div_cancel _ hssb]
    have h3 : cnt * bs / ssb = cnt * m := by
      rw [hm, show cnt * (ssb * m) = cnt * m * ssb by ring,
        Nat.mul_div_cancel _ hssb]
    have hcnt : 0 < cnt := by
      rcases Nat.eq_zero_or_pos cnt with h0 | h0
      · rw [h3, h0, Nat.zero_mul] at hz; omega
      · exact h0
    have h4 : i < i / m * m + m := by
      have h5 := (Nat.div_lt_iff_lt_mul hm0).mp (Nat.lt_succ_self (i / m))
      rw [Nat.succ_mul] at h5
      exact h5
    have h6 : m ≤ cnt * m := Nat.le_mul_of_pos_left m hcnt
    refine ⟨?_, ?_⟩
    · rw [h2]; exact Nat.div_mul_le_self i m
    · rw [h2, h3]; omega
  · have hk0 : 0 < k := by
      rcases Nat.eq_zero_or_pos k with h0 | h0
      · rw [h0, Nat.mul_zero] at hk; omega
      · exact h0
    have h1 : i * ssb / bs = i * k := by
      rw [hk, show i * (bs * k) = i * k * bs by ring, Nat.mul_div_cancel _ hbs]
    have h2 : i * ssb / bs * bs / ssb = i := by
      rw [h1, hk, show i * k * bs = i * (bs * k) by ring,
        Nat.mul_div_cancel _ (by positivity)]
    have h3 : cnt * bs / ssb = cnt / k := by
      rw [hk, show bs * k = k * bs by ring, Nat.mul_div_mul_right cnt k hbs]
    have h4 : cnt * bs / ssb ≠ 0 := hz
    rw [h3] at h4
    have h5 : 0 < cnt / k := Nat.pos_of_ne_zero h4
    rw [h2]
    exact ⟨Nat.le_refl i, by omega⟩

/-- After a successful `read_block_for_sector` for sector `i`, the recorded
loaded range contains `i`. -/
theorem readBlockForSector_inLoaded {rb : ReadBuffer} {i : Nat}
    {rb' : ReadBuffer} {rg : Nat × Nat}
    (hssb : 0 < rb.sectorSizeBytes) (hbs : 0 < rb.dev.blockSize)
    (hdiv : rb.sectorSizeBytes ∣ rb.dev.blockSize ∨
      rb.dev.blockSize ∣ rb.sectorSizeBytes)
    (h : rb.readBlockForSector i = some (rb', rg)) :
    rb'.inLoaded i := by
  unfold ReadBuffer.readBlockForSector at h
  dsimp only at h
  split at h
  · exact absurd h (by simp)
  · rename_i hz
    simp only [Option.some.injEq, Prod.mk.injEq] at h
    obtain ⟨⟨h1, _⟩, _⟩ := And.intro (Prod.mk.injEq .. ▸ h) trivial
    obtain ⟨hcov1, hcov2⟩ := refill_covers hbs hssb hdiv hz (i := i)
    refine ⟨_, _, ?_, hcov1, hcov2⟩
    rw [← h1]

/-- Every `ensure_sector` call issues at most one device read, and a
successful call leaves the desired sector inside the loaded range. -/
theorem ensureSector_spec {rb rb' : ReadBuffer} {i n : Nat}
    (hssb : 0 < rb.sectorSizeBytes) (hbs : 0 < rb.dev.blockSize)
    (hdiv : rb.sectorSizeBytes ∣ rb.dev.blockSize ∨
      rb.dev.blockSize ∣ rb.sectorSizeBytes)
    (h : rb.ensureSector i = some (rb', n)) :
    n ≤ 1 ∧ rb'.inLoaded i := by
  unfold ReadBuffer.ensureSector ReadBuffer.ensureSectorPrime at h
  split at h
  · rename_i lo hi hls
    split at h
    · rename_i hin
      simp only [Option.map_some', Option.some.injEq, Prod.mk.injEq] at h
      obtain ⟨h1, h2⟩ := h
      subst h1
      exact ⟨by omega, ⟨lo, hi, hls, hin.1, hin.2⟩⟩
    · simp only [Option.map_map, Option.map_eq_some'] at h
      obtain ⟨⟨rb₁, rg₁⟩, hread, heq⟩ := h
      simp only [Function.comp, Prod.mk.injEq] at heq
      obtain ⟨h1, h2⟩ := heq
      subst h1
      exact ⟨by omega, readBlockForSector_inLoaded hssb hbs hdiv hread⟩
  · simp only [Option.map_map, Option.map_eq_some'] at h
    obtain ⟨⟨rb₁, rg₁⟩, hread, heq⟩ := h
    simp only [Function.comp, Prod.mk.injEq] at heq
    obtain ⟨h1, h2⟩ := heq
    subst h1
    exact ⟨by omega, readBlockForSector_inLoaded hssb hbs hdiv hread⟩

/-- C9: idempotence of the sector load: after a first successful
`ensure_sector(i)` (which issues at most one `read_blocks` call), the
loaded range contains `i` and a second `ensure_sector(i)` returns the
buffer unchanged with zero device reads — at most one read in total. -/
theorem claim_C9_ensure_sector_idempotent {rb rb₁ : ReadBuffer} {i n₁ : Nat}
    (hssb : 0 < rb.sectorSizeBytes) (hbs : 0 < rb.dev.blockSize)
    (hdiv : rb.sectorSizeBytes ∣ rb.dev.blockSize ∨
      rb.dev.blockSize ∣ rb.sectorSizeBytes)
    (hfirst : rb.ensureSector i = some (rb₁, n₁)) :
    n₁ ≤ 1 ∧ rb₁.inLoaded i ∧ rb₁.ensureSector i = some (rb₁, 0) ∧
      n₁ + 0 ≤ 1 := by
  obtain ⟨hn, hin⟩ := ensureSector_spec hssb hbs hdiv hfirst
  exact ⟨hn, hin, ensureSector_of_inLoaded hin, by omega⟩

/-! ## Buffer content correctness

`loadedGood` says every sector inside the loaded range of the buffer holds
exactly the device bytes of that sector.  It is established by a refill and
preserved by cache hits, and is what makes `current_sector()` return the
right bytes in claim C2. -/

def loadedGood (dev : BlockDevice) (rb : ReadBuffer) : Prop :=
  ∀ j, rb.inLoaded j →
    rb.getLoadedSector j = some (sectorBytes dev rb.sectorSizeBytes j)

theorem loadedGood_new (dev : BlockDevice) (b : List Nat) (ssb : Nat) :
    loadedGood dev (ReadBuffer.new dev b ssb) := by
  rintro j ⟨lo, hi, hls, _, _⟩
  simp [ReadBuffer.new] at hls

/-- Alignment `first_sector * sector_size = block_index * block_size`: the refill
always starts on a sector boundary when one size divides the other. -/
theorem refill_aligned {bs ssb i : Nat} (hbs : 0 < bs) (hssb : 0 < ssb)
    (hdiv : ssb ∣ bs ∨ bs ∣ ssb) :
    i * ssb / bs * bs / ssb * ssb = i * ssb / bs * bs := by
  apply Nat.div_mul_cancel
  rcases hdiv with ⟨m, hm⟩ | ⟨k, hk⟩
  · exact ⟨i * ssb / bs * m, by rw [hm]; ring⟩
  · have h1 : i * ssb / bs = i * k := by
      rw [hk, show i * (bs * k) = i * k * bs by ring, Nat.mul_div_cancel _ hbs]
    exact ⟨i, by rw [h1, hk]; ring⟩

/-- The device always has enough blocks for the refill to load at least one
sector, provided the buffer is at least one block and one sector big and
the requested sector lies inside the device. -/
theorem refill_succeeds {bs ssb totB L i : Nat} (hbs : 0 < bs) (hssb : 0 < ssb)
    (hdiv : ssb ∣ bs ∨ bs ∣ ssb) (hbsL : bs ≤ L) (hssbL : ssb ≤ L)
    (hcov : (i + 1) * ssb ≤ totB * bs) :
    min (totB - i * ssb / bs) (L / bs) * bs / ssb ≠ 0 := by
  have key : ssb ≤ min (totB - i * ssb / bs) (L / bs) * bs := by
    rcases hdiv with ⟨m, hm⟩ | ⟨k, hk⟩
    · have hm0 : 0 < m := by
        rcases Nat.eq_zero_or_pos m with h0 | h0
        · rw [h0, Nat.mul_zero] at hm; omega
        · exact h0
      have hbi : i * ssb / bs = i / m := by
        rw [hm, show ssb * m = m * ssb by ring, Nat.mul_div_mul_right i m hssb]
      have h1 : i + 1 ≤ totB * m := by
        apply Nat.le_of_mul_le_mul_right _ hssb
        calc (i + 1) * ssb ≤ totB * bs := hcov
          _ = totB * m * ssb := by rw [hm]; ring
      have h2 : i / m < totB := by
        rw [Nat.div_lt_iff_lt_mul hm0]; omega
      have h3 : 1 ≤ totB - i * ssb / bs := by rw [hbi]; omega
      have h4 : 1 ≤ L / bs := by
        rw [Nat.le_div_iff_mul_le hbs, Nat.one_mul]; exact hbsL
      have h5 : 1 ≤ min (totB - i * ssb / bs) (L / bs) := le_min h3 h4
      calc ssb ≤ ssb * m := Nat.le_mul_of_pos_right ssb hm0
        _ = bs := hm.symm
        _ = 1 * bs := (Nat.one_mul bs).symm
        _ ≤ min (totB - i * ssb / bs) (L / bs) * bs :=
            Nat.mul_le_mul_right bs h5
    · have hk0 : 0 < k := by
        rcases Nat.eq_zero_or_pos k with h0 | h0
        · rw [h0, Nat.mul_zero] at hk; omega
        · exact h0
      have hbi : i * ssb / bs = i * k := by
        rw [hk, show i * (bs * k) = i * k * bs by ring, Nat.mul_div_cancel _ hbs]
      have h1 : (i + 1) * k ≤ totB := by
        apply Nat.le_of_mul_le_mul_right _ hbs
        calc (i + 1) * k * bs = (i + 1) * (bs * k) := by ring
          _ = (i + 1) * ssb := by rw [hk]
          _ ≤ totB * bs := hcov
      have h3 : k ≤ totB - i * ssb / bs := by
        rw [hbi]
        have : i * k + k ≤ totB := by
          calc i * k + k = (i + 1) * k := by ring
            _ ≤ totB := h1
        omega
      have h4 : k ≤ L / bs := by
        rw [Nat.le_div_iff_mul_le hbs]
        calc k * bs = bs * k := by ring
          _ = ssb := hk.symm
          _ ≤ L := hssbL
      calc ssb = bs * k := hk
        _ = k * bs := by ring
        _ ≤ min (totB - i * ssb / bs) (L / bs) * bs :=
            Nat.mul_le_mul_right bs (le_min h3 h4)
  have h6 : 1 ≤ min (totB - i * ssb / bs) (L / bs) * bs / ssb := by
    rw [Nat.le_div_iff_mul_le hssb, Nat.one_mul]; exact key
  omega

/-- A successful refill preserves the device, the sector size and the
buffer length, and establishes `loadedGood`. -/
theorem readBlockForSector_good {dev : BlockDevice} {rb rb' : ReadBuffer}
    {rg : Nat × Nat} {i : Nat}
    (hssb : 0 < rb.sectorSizeBytes) (hbs : 0 < dev.blockSize)
    (hdiv : rb.sectorSizeBytes ∣ dev.blockSize ∨
      dev.blockSize ∣ rb.sectorSizeBytes)
    (hdev : rb.dev = dev)
    (h : rb.readBlockForSector i = some (rb', rg)) :
    rb'.dev = dev ∧ rb'.sectorSizeBytes = rb.sectorSizeBytes ∧
      rb'.buffer.length = rb.buffer.length ∧ loadedGood dev rb' := by
  subst hdev
  unfold ReadBuffer.readBlockForSector at h
  dsimp only at h
  split at h
  · exact absurd h (by simp)
  · rename_i hz
    set bs := rb.dev.blockSize with hbsd
    set ssb := rb.sectorSizeBytes with hssbd
    set bi := i * ssb / bs with hbi
    set cnt := (rb.dev.readBlocks bi rb.buffer.length).1 with hcnt
    set fs := bi * bs / ssb with hfs
    set sr := cnt * bs / ssb with hsr
    have hres2 : (rb.dev.readBlocks bi rb.buffer.length).2 =
        (List.range (cnt * bs)).map fun t => rb.dev.byteAt (bi * bs + t) := rfl
    cases h
    have hcntbsL : cnt * bs ≤ rb.buffer.length := by
      have h1 : cnt ≤ rb.buffer.length / bs := min_le_right _ _
      calc cnt * bs ≤ rb.buffer.length / bs * bs :=
          Nat.mul_le_mul_right bs h1
        _ ≤ rb.buffer.length := Nat.div_mul_le_self _ _
    have hlen : ((rb.dev.readBlocks bi rb.buffer.length).2 ++
        rb.buffer.drop (rb.dev.readBlocks bi rb.buffer.length).2.length).length =
        rb.buffer.length := by
      rw [hres2, List.length_append, List.length_drop, List.length_map,
        List.length_range]
      omega
    refine ⟨rfl, rfl, hlen, ?_⟩
    rintro j ⟨lo, hi, hls, hjlo, hjhi⟩
    simp only [ReadBuffer.getLoadedSector] at hls ⊢
    injection hls with hls
    injection hls with hlo hhi
    subst hlo
    subst hhi
    rw [if_pos ⟨hjlo, hjhi⟩]
    -- the slice of the refilled buffer equals the device bytes of sector j
    have hjfs : fs ≤ j := hjlo
    have hjsr : j < fs + sr := hjhi
    have haligned : fs * ssb = bi * bs := refill_aligned hbs hssb hdiv
    have hsrbs : sr * ssb ≤ cnt * bs := Nat.div_mul_le_self _ _
    have hoff : (j - fs) * ssb + ssb ≤ cnt * bs := by
      have h1 : (j - fs) + 1 ≤ sr := by omega
      calc (j - fs) * ssb + ssb = ((j - fs) + 1) * ssb := by ring
        _ ≤ sr * ssb := Nat.mul_le_mul_right ssb h1
        _ ≤ cnt * bs := hsrbs
    have hidx : bi * bs + (j - fs) * ssb = j * ssb := by
      have h1 : (j - fs) * ssb = j * ssb - fs * ssb := by rw [Nat.sub_mul]
      have h2 : fs * ssb ≤ j * ssb := Nat.mul_le_mul_right ssb hjfs
      omega
    rw [hres2]
    have hmlen : ((List.range (cnt * bs)).map fun t =>
        rb.dev.byteAt (bi * bs + t)).length = cnt * bs := by
      rw [List.length_map, List.length_range]
    rw [List.drop_append_of_le_length (by rw [hmlen]; omega),
      List.take_append_of_le_length (by rw [List.length_drop, hmlen]; omega)]
    congr 1
    apply List.ext_getElem
    · simp only [List.length_take, List.length_drop, List.length_map,
        List.length_range, sectorBytes, BlockDevice.bytesFrom]
      exact Nat.min_eq_left (by omega)
    · intro t h1 h2
      rw [List.getElem_take, List.getElem_drop, List.getElem_map,
        List.getElem_range]
      simp only [sectorBytes, BlockDevice.bytesFrom, List.getElem_map,
        List.getElem_range]
      congr 1
      omega

/-- Full specification of one `ensure_sector` call under a cooperative
configuration: it succeeds, preserves the device, the sector size and the
buffer length, keeps every loaded sector's content correct, and afterwards
the requested sector is resident. -/
theorem ensure_full {dev : BlockDevice} {L : Nat} (rb : ReadBuffer) (i : Nat)
    (hssb : 0 < rb.sectorSizeBytes) (hbs : 0 < dev.blockSize)
    (hdiv : rb.sectorSizeBytes ∣ dev.blockSize ∨
      dev.blockSize ∣ rb.sectorSizeBytes)
    (hdev : rb.dev = dev) (hL : rb.buffer.length = L)
    (hbsL : dev.blockSize ≤ L) (hssbL : rb.sectorSizeBytes ≤ L)
    (hgood : loadedGood dev rb)
    (hcov : (i + 1) * rb.sectorSizeBytes ≤ dev.totalBlocks * dev.blockSize) :
    ∃ rb' n, rb.ensureSector i = some (rb', n) ∧ rb'.dev = dev ∧
      rb'.sectorSizeBytes = rb.sectorSizeBytes ∧ rb'.buffer.length = L ∧
      loadedGood dev rb' ∧ rb'.inLoaded i := by
  by_cases hin : rb.inLoaded i
  · exact ⟨rb, 0, ensureSector_of_inLoaded hin, hdev, rfl, hL, hgood, hin⟩
  · have hprime : rb.ensureSector i =
        (rb.readBlockForSector i).map fun p => (p.1, 1) := by
      unfold ReadBuffer.ensureSector ReadBuffer.ensureSectorPrime
      rcases hls : rb.loadedSectors with _ | ⟨lo, hi⟩
      · rw [Option.map_map]
        rfl
      · simp only
        rw [if_neg fun hc => hin ⟨lo, hi, hls, hc.1, hc.2⟩, Option.map_map]
        rfl
    have hsr : min (dev.totalBlocks - i * rb.sectorSizeBytes / dev.blockSize)
        (L / dev.blockSize) * dev.blockSize / rb.sectorSizeBytes ≠ 0 :=
      refill_succeeds hbs hssb hdiv hbsL hssbL hcov
    have hread : ∃ rb' rg, rb.readBlockForSector i = some (rb', rg) := by
      unfold ReadBuffer.readBlockForSector
      dsimp only
      rw [if_neg]
      · exact ⟨_, _, rfl⟩
      · show ¬(rb.dev.readBlocks (i * rb.sectorSizeBytes / rb.dev.blockSize)
          rb.buffer.length).1 * rb.dev.blockSize / rb.sectorSizeBytes = 0
        have h1 : (rb.dev.readBlocks
            (i * rb.sectorSizeBytes / rb.dev.blockSize) rb.buffer.length).1 =
            min (rb.dev.totalBlocks - i * rb.sectorSizeBytes / rb.dev.blockSize)
              (rb.buffer.length / rb.dev.blockSize) := rfl
        rw [h1, hdev, hL]
        exact hsr
    obtain ⟨rb', rg, hr⟩ := hread
    obtain ⟨g1, g2, g3, g4⟩ :=
      readBlockForSector_good hssb hbs hdiv hdev hr
    have hinL : rb'.inLoaded i :=
      readBlockForSector_inLoaded hssb (hdev ▸ hbs) (hdev ▸ hdiv) hr
    refine ⟨rb', 1, ?_, g1, g2, by omega, g4, hinL⟩
    rw [hprime, hr]
    rfl

/-! ## `fat::ClusterWalker` -/

/-- Rust `FATGeometry`. -/
structure FATGeometry where
  clusterSizeSectors : Nat
  sectorSizeBytes : Nat
  firstFatSector : Nat
  firstDataSector : Nat

/-- Rust `ClusterWalker`. -/
structure ClusterWalker where
  buffer : ReadBuffer
  clusterIndex : Nat
  clusterSectorIndex : Nat
  geo : FATGeometry

/-- Rust `ClusterWalker::absolute_sector_index`.  The source computes
`u64::from(self.cluster_index - 2)`: a u32 subtraction (wrapping in
release builds) widened to u64, made explicit here as `+ 2^32 - 2 mod 2^32`. -/
def ClusterWalker.absoluteSectorIndex (w : ClusterWalker) : Nat :=
  (w.clusterIndex + 4294967294) % 4294967296 * w.geo.clusterSizeSectors +
    w.geo.firstDataSector + w.clusterSectorIndex

/-- Rust `ClusterWalker::ensure_sector` (`none` models the panic inside the
underlying `ReadBuffer::ensure_sector`, cf. the `TODO: this should be
fallible` comment in the source). -/
def ClusterWalker.ensureCurrentSector (w : ClusterWalker) : Option ClusterWalker :=
  (w.buffer.ensureSector w.absoluteSectorIndex).map fun p => { w with buffer := p.1 }

/-- Rust `ClusterWalker::open` (named `openAt` because `open` is a Lean
keyword): position at sector 0 of the cluster and load it.  No
validation of `clusterIndex` is performed, mirroring the source. -/
def ClusterWalker.openAt (buffer : ReadBuffer) (clusterIndex : Nat)
    (geo : FATGeometry) : Option ClusterWalker :=
  ClusterWalker.ensureCurrentSector
    { buffer := buffer, clusterIndex := clusterIndex,
      clusterSectorIndex := 0, geo := geo }

/-- Rust `ClusterWalker::current_sector` (the `unwrap_or_else(unreachable!)`
is modelled as a default `[]`; the invariants proved below show the
loaded sector is always resident on the paths the walker takes). -/
def ClusterWalker.currentSector (w : ClusterWalker) : List Nat :=
  (w.buffer.getLoadedSector w.absoluteSectorIndex).getD []

/-- Rust `ClusterWalker::next_sector`: step within the cluster; `false` leaves
the walker unchanged at the last sector of the cluster. -/
def ClusterWalker.nextSector (w : ClusterWalker) : Option (Bool × ClusterWalker) :=
  if w.clusterSectorIndex + 1 = w.geo.clusterSizeSectors then some (false, w)
  else
    (ClusterWalker.ensureCurrentSector
      { w with clusterSectorIndex := w.clusterSectorIndex + 1 }).map
      fun w' => (true, w')

/-- Outcome of `ClusterWalker::next_cluster`: either a walker on the next
cluster, the end of the chain, the `unimplemented!()` panic taken on
`BadCluster`, or a panic raised while reading (assertion or slicing). -/
inductive NextClusterOutcome where
  | next : ClusterWalker → NextClusterOutcome
  | endOfChain : NextClusterOutcome
  | panicUnimplemented : NextClusterOutcome
  | panicRead : NextClusterOutcome

/-- Rust `ClusterWalker::next_cluster`: look up the current cluster's FAT entry
(at FAT byte offset `cluster_index * 4`) and follow it. -/
def ClusterWalker.nextCluster (w : ClusterWalker) : NextClusterOutcome :=
  let fatByteOffset := w.clusterIndex * 4
  let fatSector := w.geo.firstFatSector + fatByteOffset / w.geo.sectorSizeBytes
  let entOffset := fatByteOffset % w.geo.sectorSizeBytes
  match w.buffer.getSector fatSector with
  | none => .panicRead
  | some (rb', fatSectorData, _) =>
    match fatGetEntry fatSectorData entOffset with
    | none => .panicRead
    | some (.NextClusterIndex nextClusterIndex) =>
      match ClusterWalker.ensureCurrentSector
          { w with buffer := rb', clusterIndex := nextClusterIndex } with
      | some w' => .next w'
      | none => .panicRead
    | some .EndOfChain => .endOfChain
    | some .BadCluster => .panicUnimplemented

/-- Iterates `s` successive `next_sector` calls, all required to succeed and
return `true`. -/
def nextSectorN : Nat → ClusterWalker → Option ClusterWalker
  | 0, w => some w
  | s + 1, w =>
    match ClusterWalker.nextSector w with
    | some (true, w') => nextSectorN s w'
    | _ => none

theorem wrap_sub_two {c : Nat} (h2 : 2 ≤ c) (h32 : c < 4294967296) :
    (c + 4294967294) % 4294967296 = c - 2 := by
  have h1 : c + 4294967294 = (c - 2) + 1 * 4294967296 := by omega
  rw [h1, Nat.add_mul_mod_self_right, Nat.mod_eq_of_lt (by omega)]

/-- The walker invariant used for claim C2: position fields, preserved
buffer configuration, correct content of every loaded sector, and
residency of the current sector. -/
def WalkerInv (dev : BlockDevice) (L : Nat) (geo : FATGeometry) (c n : Nat)
    (w : ClusterWalker) : Prop :=
  w.clusterIndex = c ∧ w.clusterSectorIndex = n ∧ w.geo = geo ∧
    w.buffer.dev = dev ∧ w.buffer.sectorSizeBytes = geo.sectorSizeBytes ∧
    w.buffer.buffer.length = L ∧ loadedGood dev w.buffer ∧
    w.buffer.inLoaded ((c - 2) * geo.clusterSizeSectors +
      geo.firstDataSector + n)

theorem absoluteSectorIndex_eq {dev : BlockDevice} {L : Nat}
    {geo : FATGeometry} {c n : Nat} {w : ClusterWalker}
    (hw : WalkerInv dev L geo c n w) (h2 : 2 ≤ c) (h32 : c < 4294967296) :
    w.absoluteSectorIndex =
      (c - 2) * geo.clusterSizeSectors + geo.firstDataSector + n := by
  obtain ⟨hc, hn, hg, _⟩ := hw
  rw [ClusterWalker.absoluteSectorIndex, hc, hn, hg, wrap_sub_two h2 h32]

/-- Hypotheses on the configuration shared by the C2 lemmas: positive
power-of-two-compatible sizes, a buffer at least one block and one sector
long, and a device containing the whole cluster `c`. -/
def C2Config (dev : BlockDevice) (L : Nat) (geo : FATGeometry) (c : Nat) :
    Prop :=
  0 < geo.sectorSizeBytes ∧ 0 < dev.blockSize ∧ 0 < geo.clusterSizeSectors ∧
    (geo.sectorSizeBytes ∣ dev.blockSize ∨
      dev.blockSize ∣ geo.sectorSizeBytes) ∧
    dev.blockSize ≤ L ∧ geo.sectorSizeBytes ≤ L ∧ 2 ≤ c ∧ c < 4294967296 ∧
    ((c - 2) * geo.clusterSizeSectors + geo.firstDataSector +
      geo.clusterSizeSectors) * geo.sectorSizeBytes ≤
      dev.totalBlocks * dev.blockSize

/-- One `ensure_sector` on the walker, at sector position `n < css`. -/
theorem walker_ensure {dev : BlockDevice} {L : Nat} {geo : FATGeometry}
    {c n : Nat} (w : ClusterWalker)
    (hcfg : C2Config dev L geo c)
    (hn : n < geo.clusterSizeSectors)
    (hc : w.clusterIndex = c) (hni : w.clusterSectorIndex = n)
    (hg : w.geo = geo) (hbd : w.buffer.dev = dev)
    (hbs : w.buffer.sectorSizeBytes = geo.sectorSizeBytes)
    (hbl : w.buffer.buffer.length = L) (hgood : loadedGood dev w.buffer) :
    ∃ w', w.ensureCurrentSector = some w' ∧ WalkerInv dev L geo c n w' := by
  obtain ⟨h1, h2, h3, h4, h5, h6, h7, h8, h9⟩ := hcfg
  have habs : w.absoluteSectorIndex =
      (c - 2) * geo.clusterSizeSectors + geo.firstDataSector + n := by
    rw [ClusterWalker.absoluteSectorIndex, hc, hni, hg, wrap_sub_two h7 h8]
  have hcov : (w.absoluteSectorIndex + 1) * w.buffer.sectorSizeBytes ≤
      dev.totalBlocks * dev.blockSize := by
    rw [habs, hbs]
    calc ((c - 2) * geo.clusterSizeSectors + geo.firstDataSector + n + 1) *
          geo.sectorSizeBytes
        ≤ ((c - 2) * geo.clusterSizeSectors + geo.firstDataSector +
            geo.clusterSizeSectors) * geo.sectorSizeBytes :=
          Nat.mul_le_mul_right _ (by omega)
      _ ≤ dev.totalBlocks * dev.blockSize := h9
  obtain ⟨rb', m, hsome, g1, g2, g3, g4, g5⟩ :=
    ensure_full w.buffer w.absoluteSectorIndex (hbs ▸ h1) h2
      (by rw [hbs]; exact h4) hbd hbl h5 (by rw [hbs]; exact h6) hgood hcov
  refine ⟨{ w with buffer := rb' }, ?_, ?_⟩
  · rw [ClusterWalker.ensureCurrentSector, hsome]
    rfl
  · exact ⟨hc, hni, hg, g1, by rw [g2, hbs], g3, g4, habs ▸ g5⟩

/-- Reading `current_sector()` under the invariant returns the device bytes of the
current absolute sector. -/
theorem currentSector_eq {dev : BlockDevice} {L : Nat} {geo : FATGeometry}
    {c n : Nat} {w : ClusterWalker} (hw : WalkerInv dev L geo c n w)
    (h2 : 2 ≤ c) (h32 : c < 4294967296) :
    w.currentSector = sectorBytes dev geo.sectorSizeBytes
      ((c - 2) * geo.clusterSizeSectors + geo.firstDataSector + n) := by
  obtain ⟨hc, hn, hg, hbd, hbs, hbl, hgood, hin⟩ := hw
  have habs := absoluteSectorIndex_eq ⟨hc, hn, hg, hbd, hbs, hbl, hgood, hin⟩
    h2 h32
  rw [ClusterWalker.currentSector, habs, hgood _ hin, hbs]
  rfl

/-- Opening a cluster establishes the invariant at sector position 0. -/
theorem openAt_inv {dev : BlockDevice} {L : Nat} {geo : FATGeometry} {c : Nat}
    (b : List Nat) (hcfg : C2Config dev L geo c) (hbL : b.length = L) :
    ∃ w, ClusterWalker.openAt (ReadBuffer.new dev b geo.sectorSizeBytes) c geo =
      some w ∧ WalkerInv dev L geo c 0 w := by
  exact walker_ensure _ hcfg hcfg.2.2.1 rfl rfl rfl rfl rfl hbL
    (loadedGood_new dev b geo.sectorSizeBytes)

/-- A successful `next_sector` step preserves the invariant and advances
the sector position. -/
theorem nextSector_step {dev : BlockDevice} {L : Nat} {geo : FATGeometry}
    {c n : Nat} {w : ClusterWalker} (hcfg : C2Config dev L geo c)
    (hw : WalkerInv dev L geo c n w) (hn : n + 1 < geo.clusterSizeSectors) :
    ∃ w', w.nextSector = some (true, w') ∧ WalkerInv dev L geo c (n + 1) w' := by
  obtain ⟨hc, hni, hg, hbd, hbs, hbl, hgood, _⟩ := hw
  obtain ⟨w', hsome, hw'⟩ :=
    walker_ensure { w with clusterSectorIndex := w.clusterSectorIndex + 1 }
      hcfg hn hc (show w.clusterSectorIndex + 1 = n + 1 by rw [hni])
      hg hbd hbs hbl hgood
  refine ⟨w', ?_, hw'⟩
  rw [ClusterWalker.nextSector, if_neg (by rw [hni, hg]; omega), hsome]
  rfl

/-- Iterated successful `next_sector` calls. -/
theorem nextSectorN_inv {dev : BlockDevice} {L : Nat} {geo : FATGeometry}
    {c : Nat} (hcfg : C2Config dev L geo c) :
    ∀ (s n : Nat) (w : ClusterWalker), WalkerInv dev L geo c n w →
      n + s < geo.clusterSizeSectors →
      ∃ w', nextSectorN s w = some w' ∧ WalkerInv dev L geo c (n + s) w' := by
  intro s
  induction s with
  | zero => exact fun n w hw _ => ⟨w, rfl, hw⟩
  | succ s ih =>
    intro n w hw hn
    obtain ⟨w₁, hstep, hw₁⟩ := nextSector_step hcfg hw (by omega)
    obtain ⟨w', hrest, hw'⟩ := ih (n + 1) w₁ hw₁ (by omega)
    refine ⟨w', ?_, by rw [show n + (s + 1) = n + 1 + s by omega]; exact hw'⟩
    simp only [nextSectorN, hstep]
    exact hrest

/-- C2: cluster-walker position invariant.  For every cluster `c ≥ 2` and
sector position `s < cluster_size_sectors`, after `open` followed by `s`
successful `next_sector` calls the walker's `current_sector()` is the
device content of the sector at absolute index
`first_data_sector + (c − 2) * cluster_size_sectors + s`; at that point
`next_sector` returns `true` (and advances) exactly when
`s + 1 < cluster_size_sectors`, and returns `false` leaving the walker
unchanged when `s + 1 = cluster_size_sectors`. -/
theorem claim_C2_cluster_walker_invariant {dev : BlockDevice}
    {geo : FATGeometry} {c s : Nat} (b : List Nat)
    (hcfg : C2Config dev b.length geo c)
    (hs : s < geo.clusterSizeSectors) :
    ∃ w₀ w,
      ClusterWalker.openAt (ReadBuffer.new dev b geo.sectorSizeBytes) c geo =
        some w₀ ∧
      nextSectorN s w₀ = some w ∧
      w.clusterIndex = c ∧ w.clusterSectorIndex = s ∧
      w.currentSector = sectorBytes dev geo.sectorSizeBytes
        (geo.firstDataSector + (c - 2) * geo.clusterSizeSectors + s) ∧
      (s + 1 = geo.clusterSizeSectors → w.nextSector = some (false, w)) ∧
      (s + 1 < geo.clusterSizeSectors →
        ∃ w', w.nextSector = some (true, w') ∧ w'.clusterSectorIndex = s + 1) := by
  obtain ⟨w₀, hopen, hw₀⟩ := openAt_inv b hcfg rfl
  obtain ⟨w, hwalk, hw⟩ := nextSectorN_inv hcfg s 0 w₀ hw₀ (by omega)
  rw [Nat.zero_add] at hw
  have h2c : 2 ≤ c := hcfg.2.2.2.2.2.2.1
  have h32 : c < 4294967296 := hcfg.2.2.2.2.2.2.2.1
  have hcur := currentSector_eq hw h2c h32
  obtain ⟨hc, hn, hg, hbd, hbs, hbl, hgood, hin⟩ := hw
  refine ⟨w₀, w, hopen, hwalk, hc, hn, ?_, ?_, ?_⟩
  · rw [hcur, show geo.firstDataSector + (c - 2) * geo.clusterSizeSectors + s =
      (c - 2) * geo.clusterSizeSectors + geo.firstDataSector + s by omega]
  · intro hlast
    rw [ClusterWalker.nextSector, if_pos (by rw [hn, hg]; omega)]
  · intro hmore
    obtain ⟨w', hstep, hw'⟩ := nextSector_step hcfg
      ⟨hc, hn, hg, hbd, hbs, hbl, hgood, hin⟩ hmore
    exact ⟨w', hstep, hw'.2.1⟩

/-- Concrete device for the C2 witness: 32-byte blocks, 4 blocks. -/
def demoDevC2 : BlockDevice := ⟨32, 4, fun j => j % 256⟩

/-- Concrete geometry for the C2 witness: 2 sectors per cluster, 32-byte
sectors, FAT at sector 0, data region at sector 1. -/
def demoGeoC2 : FATGeometry := ⟨2, 32, 0, 1⟩

/-- Caller-supplied 32-byte read buffer for the demos. -/
def demoBufC2 : List Nat := List.replicate 32 0

theorem claim_C2_cluster_walker_invariant_witness :
    C2Config demoDevC2 demoBufC2.length demoGeoC2 2 ∧
    1 < demoGeoC2.clusterSizeSectors ∧
    (∃ w₀ w,
      ClusterWalker.openAt
          (ReadBuffer.new demoDevC2 demoBufC2 demoGeoC2.sectorSizeBytes) 2
          demoGeoC2 = some w₀ ∧
      nextSectorN 1 w₀ = some w ∧
      w.clusterIndex = 2 ∧ w.clusterSectorIndex = 1 ∧
      w.currentSector = sectorBytes demoDevC2 demoGeoC2.sectorSizeBytes
        (demoGeoC2.firstDataSector + (2 - 2) * demoGeoC2.clusterSizeSectors + 1) ∧
      (1 + 1 = demoGeoC2.clusterSizeSectors → w.nextSector = some (false, w)) ∧
      (1 + 1 < demoGeoC2.clusterSizeSectors →
        ∃ w', w.nextSector = some (true, w') ∧ w'.clusterSectorIndex = 1 + 1)) := by
  have hcfg : C2Config demoDevC2 demoBufC2.length demoGeoC2 2 := by
    unfold C2Config demoDevC2 demoGeoC2 demoBufC2
    refine ⟨by decide, by decide, by decide, Or.inl (by decide), ?_⟩
    decide
  have hs : 1 < demoGeoC2.clusterSizeSectors := by decide
  exact ⟨hcfg, hs, claim_C2_cluster_walker_invariant demoBufC2 hcfg hs⟩

/-! ## Directory entry stream -/

/-- Structural workhorse for `chunksExact`: the fuel only bounds the
recursion depth and any `fuel ≥ l.length` gives the same result. -/
def chunksExactAux (n : Nat) : Nat → List Nat → List (List Nat)
  | 0, _ => []
  | fuel + 1, l =>
    if 0 < n ∧ n ≤ l.length then l.take n :: chunksExactAux n fuel (l.drop n)
    else []

/-- Rust `slice::chunks_exact(32)`: the consecutive complete `n`-byte chunks of
a byte slice, the shorter remainder being dropped. -/
def chunksExact (n : Nat) (l : List Nat) : List (List Nat) :=
  chunksExactAux n l.length l

/-- Rust `DirectoryEntriesIterator::next` over the list of 32-byte records:
stop at the first record whose byte 0 is `0x00`, skip records whose
byte 0 is `0xE5`, yield everything else in order. -/
def occupiedOfRecords : List (List Nat) → List (List Nat)
  | [] => []
  | r :: rs =>
    if r.headD 0 = 0x00 then []
    else if r.headD 0 = 0xE5 then occupiedOfRecords rs
    else r :: occupiedOfRecords rs

/-- Rust `DirectoryWalker::occupied_entries` for one sector's bytes. -/
def occupiedEntriesOfSector (sector : List Nat) : List (List Nat) :=
  occupiedOfRecords (chunksExact 32 sector)

theorem chunksExactAux_eq_map_range (n : Nat) (hn : 0 < n) :
    ∀ (fuel : Nat) (l : List Nat), l.length ≤ fuel →
      chunksExactAux n fuel l = (List.range (l.length / n)).map
        fun i => (l.drop (n * i)).take n := by
  intro fuel
  induction fuel with
  | zero =>
    intro l hl
    have h0 : l.length = 0 := by omega
    rw [chunksExactAux, h0, Nat.zero_div, List.range_zero, List.map_nil]
  | succ N ih =>
    intro l hl
    by_cases hle : n ≤ l.length
    · rw [chunksExactAux, if_pos ⟨hn, hle⟩,
        ih (l.drop n) (by rw [List.length_drop]; omega)]
      rw [List.length_drop,
        show l.length / n = (l.length - n) / n + 1 from
          Nat.div_eq_sub_div hn hle, List.range_succ_eq_map]
      rw [List.map_cons, Nat.mul_zero, List.drop_zero, List.map_map]
      congr 1
      apply List.map_congr_left
      intro i _
      simp only [Function.comp]
      rw [List.drop_drop]
      congr 1
      rw [Nat.mul_succ, Nat.add_comm n (n * i)]
    · rw [chunksExactAux, if_neg (by omega),
        Nat.div_eq_of_lt (by omega), List.range_zero, List.map_nil]

theorem chunksExact_eq_map_range (n : Nat) (hn : 0 < n) (l : List Nat) :
    chunksExact n l = (List.range (l.length / n)).map
      fun i => (l.drop (n * i)).take n :=
  chunksExactAux_eq_map_range n hn l.length l (Nat.le_refl _)

theorem occupiedOfRecords_sublist_shape (rs : List (List Nat)) :
    occupiedOfRecords rs =
      (rs.takeWhile fun r => r.headD 0 != 0x00).filter
        fun r => r.headD 0 != 0xE5 := by
  induction rs with
  | nil => rfl
  | cons r rs ih =>
    rw [occupiedOfRecords, List.takeWhile_cons]
    by_cases h0 : r.headD 0 = 0x00
    · have hb : (r.headD 0 != 0x00) = false := bne_eq_false_iff_eq.mpr h0
      rw [if_pos h0, hb]
      simp
    · have hb : (r.headD 0 != 0x00) = true := bne_iff_ne.mpr h0
      rw [if_neg h0, hb, if_pos rfl, List.filter_cons]
      by_cases h5 : r.headD 0 = 0xE5
      · have hb5 : (r.headD 0 != 0xE5) = false := bne_eq_false_iff_eq.mpr h5
        rw [if_pos h5, hb5, ih]
        simp
      · have hb5 : (r.headD 0 != 0xE5) = true := bne_iff_ne.mpr h5
        rw [if_neg h5, hb5, ih]
        simp

/-- C4: per-sector directory entry stream: `occupied_entries` splits the
sector into consecutive 32-byte records in order and yields exactly the
records before the first `0x00`-headed record, omitting `0xE5`-headed
records; an `0xE5` record is never yielded. -/
theorem claim_C4_occupied_entries (sector : List Nat) :
    occupiedEntriesOfSector sector =
      ((chunksExact 32 sector).takeWhile fun r => r.headD 0 != 0x00).filter
        (fun r => r.headD 0 != 0xE5) ∧
    ∀ r ∈ occupiedEntriesOfSector sector, r.headD 0 ≠ 0xE5 := by
  constructor
  · exact occupiedOfRecords_sublist_shape (chunksExact 32 sector)
  · intro r hr
    rw [occupiedEntriesOfSector,
      occupiedOfRecords_sublist_shape (chunksExact 32 sector)] at hr
    have := List.of_mem_filter hr
    simpa using this

theorem occupiedOfRecords_length_le (rs : List (List Nat)) :
    (occupiedOfRecords rs).length ≤ rs.length := by
  induction rs with
  | nil => exact Nat.le_refl 0
  | cons r rs ih =>
    rw [occupiedOfRecords]
    by_cases h0 : r.headD 0 = 0x00
    · rw [if_pos h0]
      simp
    · by_cases h5 : r.headD 0 = 0xE5
      · rw [if_neg h0, if_pos h5]
        simp only [List.length_cons]
        omega
      · rw [if_neg h0, if_neg h5]
        simp only [List.length_cons]
        omega

/-- C10: entries come only from complete 32-byte records at offsets that
are multiples of 32; a trailing remainder shorter than 32 bytes is
ignored, so at most `⌊sector_length / 32⌋` entries are yielded. -/
theorem claim_C10_complete_records_only (sector : List Nat) :
    chunksExact 32 sector = (List.range (sector.length / 32)).map
      (fun i => (sector.drop (32 * i)).take 32) ∧
    (∀ r ∈ chunksExact 32 sector, r.length = 32) ∧
    (∀ r ∈ occupiedEntriesOfSector sector, ∃ i, i < sector.length / 32 ∧
      r = (sector.drop (32 * i)).take 32) ∧
    (occupiedEntriesOfSector sector).length ≤ sector.length / 32 := by
  have hch := chunksExact_eq_map_range 32 (by omega) sector
  have hchlen : (chunksExact 32 sector).length = sector.length / 32 := by
    rw [hch, List.length_map, List.length_range]
  have hmem : ∀ r ∈ chunksExact 32 sector, ∃ i, i < sector.length / 32 ∧
      r = (sector.drop (32 * i)).take 32 := by
    intro r hr
    rw [hch] at hr
    obtain ⟨i, hi, hri⟩ := List.mem_map.mp hr
    exact ⟨i, List.mem_range.mp hi, hri.symm⟩
  refine ⟨hch, ?_, ?_, ?_⟩
  · intro r hr
    obtain ⟨i, hi, hri⟩ := hmem r hr
    rw [hri, List.length_take, List.length_drop]
    apply Nat.min_eq_left
    -- 32 * i + 32 ≤ sector.length because i < sector.length / 32
    have h1 : i + 1 ≤ sector.length / 32 := hi
    have h2 : (i + 1) * 32 ≤ sector.length / 32 * 32 :=
      Nat.mul_le_mul_right 32 h1
    have h3 : sector.length / 32 * 32 ≤ sector.length :=
      Nat.div_mul_le_self _ _
    omega
  · intro r hr
    apply hmem
    rw [occupiedEntriesOfSector, occupiedOfRecords_sublist_shape] at hr
    exact List.takeWhile_subset _ (List.mem_of_mem_filter hr)
  · calc (occupiedEntriesOfSector sector).length
        ≤ (chunksExact 32 sector).length :=
          occupiedOfRecords_length_le _
      _ = sector.length / 32 := hchlen

/-! ## `fat::DirectoryWalker` -/

/-- Rust `DirectoryWalker`. -/
structure DirectoryWalker where
  clusterWalker : ClusterWalker

/-- Rust `DirectoryWalker::occupied_entries`: the occupied 32-byte records of
the walker's current sector. -/
def DirectoryWalker.occupiedEntries (w : DirectoryWalker) : List (List Nat) :=
  occupiedEntriesOfSector w.clusterWalker.currentSector

/-- Rust `DirectoryWalker::next`: advance to the next sector within the
cluster, else follow the FAT chain.  `none` covers both the end of the
chain and the panic outcomes of `next_cluster` (in each case no further
entry is yielded). -/
def DirectoryWalker.next (w : DirectoryWalker) : Option DirectoryWalker :=
  match w.clusterWalker.nextSector with
  | some (true, cw) => some ⟨cw⟩
  | some (false, cw) =>
    match cw.nextCluster with
    | .next cw' => some ⟨cw'⟩
    | _ => none
  | none => none

/-- Rust `DirectoryWalker::enumerate_occupied_entries`, fuelled: the list of
records handed to the sink, in order. -/
def DirectoryWalker.enumerateOccupiedEntries :
    Nat → DirectoryWalker → List (List Nat)
  | 0, _ => []
  | fuel + 1, w =>
    w.occupiedEntries ++
      match w.next with
      | some w' => DirectoryWalker.enumerateOccupiedEntries fuel w'
      | none => []

theorem occupiedOfRecords_append_terminator {t : List Nat}
    (pre post : List (List Nat)) (ht : t.headD 0 = 0x00) :
    occupiedOfRecords (pre ++ t :: post) = occupiedOfRecords pre := by
  induction pre with
  | nil =>
    simp only [List.nil_append, occupiedOfRecords, if_pos ht]
  | cons r rs ih =>
    simp only [List.cons_append, occupiedOfRecords]
    by_cases h0 : r.headD 0 = 0x00
    · rw [if_pos h0, if_pos h0]
    · rw [if_neg h0, if_neg h0]
      by_cases h5 : r.headD 0 = 0xE5
      · rw [if_pos h5, if_pos h5, List.append_eq, ih]
      · rw [if_neg h5, if_neg h5, List.append_eq, ih]

/-- C3 (amended): a `0x00` record terminates only the current sector's
stream — the records after it in that sector are never yielded — while
`enumerate_occupied_entries` still advances to the following sectors and
clusters and yields their occupied entries. -/
theorem claim_C3_terminator_sector_scoped (fuel : Nat) (w : DirectoryWalker)
    (pre post : List (List Nat)) (t : List Nat)
    (hsplit : chunksExact 32 w.clusterWalker.currentSector = pre ++ t :: post)
    (ht : t.headD 0 = 0x00) :
    DirectoryWalker.enumerateOccupiedEntries (fuel + 1) w =
      occupiedOfRecords pre ++
        match w.next with
        | some w' => DirectoryWalker.enumerateOccupiedEntries fuel w'
        | none => [] := by
  rw [DirectoryWalker.enumerateOccupiedEntries]
  congr 1
  rw [DirectoryWalker.occupiedEntries, occupiedEntriesOfSector, hsplit,
    occupiedOfRecords_append_terminator pre post ht]

/-- The bytes of the three-sector directory image used to refute C3 as
stated: sector 0 is the FAT (cluster 2's entry is end-of-chain), sector 1
(cluster 2, sector 0) starts with the `0x00` terminator, and sector 2
(cluster 2, sector 1) still holds an occupied record starting `0x41`. -/
def demoDirBytes : List Nat :=
  ([0, 0, 0, 0, 0, 0, 0, 0, 255, 255, 255, 15] ++ List.replicate 20 0) ++
    List.replicate 32 0 ++ (0x41 :: List.replicate 31 0)

def demoDevC3 : BlockDevice := ⟨32, 3, fun j => demoDirBytes.getD j 0⟩

/-- 32-byte sectors, 2 sectors per cluster, FAT at sector 0, data at 1. -/
def demoGeoC3 : FATGeometry := ⟨2, 32, 0, 1⟩

/-- The cluster walker right after `open(cluster 2)` on the C3 image. -/
def demoWalkC3 : ClusterWalker :=
  ⟨⟨demoDevC3, List.replicate 32 0, 32, some (1, 2)⟩, 2, 0, demoGeoC3⟩

theorem claim_C3_counterexample :
    ClusterWalker.openAt (ReadBuffer.new demoDevC3 (List.replicate 32 0) 32) 2
        demoGeoC3 = some demoWalkC3 ∧
    chunksExact 32 demoWalkC3.currentSector = [List.replicate 32 0] ∧
    (List.replicate 32 (0 : Nat)).headD 0 = 0x00 ∧
    DirectoryWalker.occupiedEntries ⟨demoWalkC3⟩ = [] ∧
    DirectoryWalker.enumerateOccupiedEntries 3 ⟨demoWalkC3⟩ =
      [0x41 :: List.replicate 31 0] ∧
    (0x41 :: List.replicate 31 (0 : Nat)).headD 0 ≠ 0x00 :=
  ⟨rfl, by decide, by decide, by decide, by decide, by decide⟩

theorem claim_C3_terminator_sector_scoped_witness :
    chunksExact 32 (⟨demoWalkC3⟩ : DirectoryWalker).clusterWalker.currentSector =
      [] ++ List.replicate 32 0 :: [] ∧
    (List.replicate 32 (0 : Nat)).headD 0 = 0x00 ∧
    DirectoryWalker.enumerateOccupiedEntries (2 + 1) ⟨demoWalkC3⟩ =
      occupiedOfRecords [] ++
        match DirectoryWalker.next ⟨demoWalkC3⟩ with
        | some w' => DirectoryWalker.enumerateOccupiedEntries 2 w'
        | none => [] :=
  ⟨by decide, by decide,
    claim_C3_terminator_sector_scoped 2 ⟨demoWalkC3⟩ [] [] (List.replicate 32 0)
      (by decide) (by decide)⟩

/-! ## Long-file-name character iterator -/

/-- Byte range 1..11 of an LFN record (`RANGE_PORTION1`). -/
def portion1 (e : List Nat) : List Nat := (e.drop 1).take 10

/-- Byte range 14..26 of an LFN record (`RANGE_PORTION2`). -/
def portion2 (e : List Nat) : List Nat := (e.drop 14).take 12

/-- Byte range 28..32 of an LFN record (`RANGE_PORTION3`). -/
def portion3 (e : List Nat) : List Nat := (e.drop 28).take 4

/-- Rust `LongFileNameCharIterator` in state `Portion3`: decode little-endian
u16 units (`(second_byte << 8) | first_byte`), stopping at a zero unit or
when fewer than two bytes remain (a single leftover byte would panic in
the source; the portions always have even length). -/
def lfnRun3 : List Nat → List Nat
  | b0 :: b1 :: rest =>
    if b1 <<< 8 ||| b0 = 0 then [] else (b1 <<< 8 ||| b0) :: lfnRun3 rest
  | _ => []

/-- Rust `LongFileNameCharIterator` in state `Portion2` (falls through to
`Portion3` on exhaustion). -/
def lfnRun2 (p3 : List Nat) : List Nat → List Nat
  | b0 :: b1 :: rest =>
    if b1 <<< 8 ||| b0 = 0 then []
    else (b1 <<< 8 ||| b0) :: lfnRun2 p3 rest
  | _ => lfnRun3 p3

/-- Rust `LongFileNameCharIterator` in state `Portion1` (falls through to
`Portion2` on exhaustion). -/
def lfnRun1 (p2 p3 : List Nat) : List Nat → List Nat
  | b0 :: b1 :: rest =>
    if b1 <<< 8 ||| b0 = 0 then []
    else (b1 <<< 8 ||| b0) :: lfnRun1 p2 p3 rest
  | _ => lfnRun2 p3 p2

/-- Rust `LongFileNameEntry::chars`: the UTF-16 code units yielded for one
32-byte LFN record. -/
def lfnChars (entry : List Nat) : List Nat :=
  lfnRun1 (portion2 entry) (portion3 entry) (portion1 entry)

/-- Little-endian u16 units of a byte list (any odd leftover dropped) —
used to phrase the claim. -/
def u16leUnits : List Nat → List Nat
  | b0 :: b1 :: rest => (b1 <<< 8 ||| b0) :: u16leUnits rest
  | _ => []

theorem lfnRun3_eq : ∀ l : List Nat,
    lfnRun3 l = (u16leUnits l).takeWhile fun v => v != 0
  | [] => rfl
  | [_] => rfl
  | b0 :: b1 :: rest => by
    have hunf : lfnRun3 (b0 :: b1 :: rest) =
        if b1 <<< 8 ||| b0 = 0 then []
        else (b1 <<< 8 ||| b0) :: lfnRun3 rest := rfl
    have hupf : u16leUnits (b0 :: b1 :: rest) =
        (b1 <<< 8 ||| b0) :: u16leUnits rest := rfl
    rw [hunf, hupf, List.takeWhile_cons]
    by_cases hz : b1 <<< 8 ||| b0 = 0
    · rw [if_pos hz, if_neg (by simp [hz])]
    · rw [if_neg hz, if_pos (bne_iff_ne.mpr hz), lfnRun3_eq rest]

theorem lfnRun2_eq (p3 : List Nat) : ∀ l : List Nat,
    lfnRun2 p3 l = (u16leUnits l ++ u16leUnits p3).takeWhile fun v => v != 0
  | [] => by
    rw [show lfnRun2 p3 [] = lfnRun3 p3 from rfl,
      show u16leUnits [] = [] from rfl, List.nil_append, lfnRun3_eq]
  | [b] => by
    rw [show lfnRun2 p3 [b] = lfnRun3 p3 from rfl,
      show u16leUnits [b] = [] from rfl, List.nil_append, lfnRun3_eq]
  | b0 :: b1 :: rest => by
    have hunf : lfnRun2 p3 (b0 :: b1 :: rest) =
        if b1 <<< 8 ||| b0 = 0 then []
        else (b1 <<< 8 ||| b0) :: lfnRun2 p3 rest := rfl
    have hupf : u16leUnits (b0 :: b1 :: rest) =
        (b1 <<< 8 ||| b0) :: u16leUnits rest := rfl
    rw [hunf, hupf, List.cons_append, List.takeWhile_cons]
    by_cases hz : b1 <<< 8 ||| b0 = 0
    · rw [if_pos hz, if_neg (by simp [hz])]
    · rw [if_neg hz, if_pos (bne_iff_ne.mpr hz), lfnRun2_eq p3 rest]

theorem lfnRun1_eq (p2 p3 : List Nat) : ∀ l : List Nat,
    lfnRun1 p2 p3 l =
      (u16leUnits l ++ u16leUnits p2 ++ u16leUnits p3).takeWhile
        fun v => v != 0
  | [] => by
    rw [show lfnRun1 p2 p3 [] = lfnRun2 p3 p2 from rfl,
      show u16leUnits [] = [] from rfl, List.nil_append, lfnRun2_eq]
  | [b] => by
    rw [show lfnRun1 p2 p3 [b] = lfnRun2 p3 p2 from rfl,
      show u16leUnits [b] = [] from rfl, List.nil_append, lfnRun2_eq]
  | b0 :: b1 :: rest => by
    have hunf : lfnRun1 p2 p3 (b0 :: b1 :: rest) =
        if b1 <<< 8 ||| b0 = 0 then []
        else (b1 <<< 8 ||| b0) :: lfnRun1 p2 p3 rest := rfl
    have hupf : u16leUnits (b0 :: b1 :: rest) =
        (b1 <<< 8 ||| b0) :: u16leUnits rest := rfl
    rw [hunf, hupf, List.cons_append, List.cons_append, List.takeWhile_cons]
    by_cases hz : b1 <<< 8 ||| b0 = 0
    · rw [if_pos hz, if_neg (by simp [hz])]
    · rw [if_neg hz, if_pos (bne_iff_ne.mpr hz), lfnRun1_eq p2 p3 rest]

theorem u16leUnits_length : ∀ l : List Nat,
    (u16leUnits l).length = l.length / 2
  | [] => rfl
  | [b] => by
    have h1 : u16leUnits [b] = [] := rfl
    rw [h1]
    simp only [List.length_nil, List.length_cons]
  | b0 :: b1 :: rest => by
    have hupf : u16leUnits (b0 :: b1 :: rest) =
        (b1 <<< 8 ||| b0) :: u16leUnits rest := rfl
    rw [hupf, List.length_cons, u16leUnits_length rest]
    simp only [List.length_cons]
    omega

theorem takeWhile_length_le (p : Nat → Bool) (l : List Nat) :
    (l.takeWhile p).length ≤ l.length := by
  induction l with
  | nil => exact Nat.le_refl 0
  | cons a l ih =>
    rw [List.takeWhile_cons]
    by_cases hp : p a = true
    · rw [if_pos hp, List.length_cons, List.length_cons]
      omega
    · rw [if_neg hp]
      simp

/-- C8: the LFN character iterator yields the little-endian UTF-16 units
of bytes 1..11 (5 units), then 14..26 (6 units), then 28..32 (2 units), in
order, stopping at the first zero unit or after the third portion — hence
at most 13 units. -/
theorem claim_C8_lfn_char_sequence (entry : List Nat)
    (h : entry.length = 32) :
    lfnChars entry =
      (u16leUnits (portion1 entry) ++ u16leUnits (portion2 entry) ++
        u16leUnits (portion3 entry)).takeWhile (fun v => v != 0) ∧
    (u16leUnits (portion1 entry)).length = 5 ∧
    (u16leUnits (portion2 entry)).length = 6 ∧
    (u16leUnits (portion3 entry)).length = 2 ∧
    (lfnChars entry).length ≤ 13 := by
  have hp1 : (portion1 entry).length = 10 := by
    rw [portion1, List.length_take, List.length_drop, h]
    omega
  have hp2 : (portion2 entry).length = 12 := by
    rw [portion2, List.length_take, List.length_drop, h]
    omega
  have hp3 : (portion3 entry).length = 4 := by
    rw [portion3, List.length_take, List.length_drop, h]
    omega
  have hu1 : (u16leUnits (portion1 entry)).length = 5 := by
    rw [u16leUnits_length, hp1]
  have hu2 : (u16leUnits (portion2 entry)).length = 6 := by
    rw [u16leUnits_length, hp2]
  have hu3 : (u16leUnits (portion3 entry)).length = 2 := by
    rw [u16leUnits_length, hp3]
  have hmain : lfnChars entry =
      (u16leUnits (portion1 entry) ++ u16leUnits (portion2 entry) ++
        u16leUnits (portion3 entry)).takeWhile (fun v => v != 0) := by
    rw [lfnChars, lfnRun1_eq]
  refine ⟨hmain, hu1, hu2, hu3, ?_⟩
  rw [hmain]
  calc ((u16leUnits (portion1 entry) ++ u16leUnits (portion2 entry) ++
        u16leUnits (portion3 entry)).takeWhile (fun v => v != 0)).length
      ≤ (u16leUnits (portion1 entry) ++ u16leUnits (portion2 entry) ++
        u16leUnits (portion3 entry)).length := takeWhile_length_le _ _
    _ = 13 := by
      rw [List.length_append, List.length_append, hu1, hu2, hu3]

/-- Scenario D record: order byte 1, portion 1 holds `H`, `i`, a zero
unit and two `0xFFFF` pads; portions 2 and 3 are all `0xFFFF`. -/
def demoLfn : List Nat :=
  [0x01, 0x48, 0x00, 0x69, 0x00, 0x00, 0x00, 0xFF, 0xFF, 0xFF, 0xFF,
    0x0F, 0x00, 0x99] ++ List.replicate 12 0xFF ++ [0x00, 0x00] ++
    List.replicate 4 0xFF

theorem claim_C8_lfn_char_sequence_witness :
    demoLfn.length = 32 ∧
    (lfnChars demoLfn =
      (u16leUnits (portion1 demoLfn) ++ u16leUnits (portion2 demoLfn) ++
        u16leUnits (portion3 demoLfn)).takeWhile (fun v => v != 0) ∧
    (u16leUnits (portion1 demoLfn)).length = 5 ∧
    (u16leUnits (portion2 demoLfn)).length = 6 ∧
    (u16leUnits (portion3 demoLfn)).length = 2 ∧
    (lfnChars demoLfn).length ≤ 13) ∧
    lfnChars demoLfn = [0x0048, 0x0069] :=
  ⟨by decide, claim_C8_lfn_char_sequence demoLfn (by decide), by decide⟩

/-! ## Facade `read` and the error-path demos -/

/-- Rust `FATFileSystem::read`: computes `first_sector_of_cluster` (u32
arithmetic, `first_data_sector as u32`) and passes it directly as the
`start_block` argument of `read_blocks`, returning what the device reads
into the cluster buffer. -/
def FATFileSystem.read (dev : BlockDevice) (geo : FATGeometry)
    (fileFirstCluster : Nat) (bufLen : Nat) : Nat × List Nat :=
  let firstSector := firstSectorOfCluster fileFirstCluster
    geo.clusterSizeSectors (geo.firstDataSector % 4294967296)
  dev.readBlocks firstSector bufLen

/-- C9 witness device: 32-byte blocks. -/
def demoDevC9 : BlockDevice := ⟨32, 4, fun j => j % 256⟩

def demoRbC9 : ReadBuffer := ReadBuffer.new demoDevC9 (List.replicate 32 0) 32

/-- The buffer state after `ensure_sector(1)` on `demoRbC9`. -/
def demoRbC9Loaded : ReadBuffer :=
  ⟨demoDevC9, (List.range 32).map (fun j => (32 + j) % 256), 32, some (1, 2)⟩

theorem claim_C9_ensure_sector_idempotent_witness :
    0 < demoRbC9.sectorSizeBytes ∧ 0 < demoRbC9.dev.blockSize ∧
    (demoRbC9.sectorSizeBytes ∣ demoRbC9.dev.blockSize ∨
      demoRbC9.dev.blockSize ∣ demoRbC9.sectorSizeBytes) ∧
    demoRbC9.ensureSector 1 = some (demoRbC9Loaded, 1) ∧
    (1 ≤ 1 ∧ demoRbC9Loaded.inLoaded 1 ∧
      demoRbC9Loaded.ensureSector 1 = some (demoRbC9Loaded, 0) ∧ 1 + 0 ≤ 1) :=
  ⟨by decide, by decide, Or.inl (by decide), rfl,
    @claim_C9_ensure_sector_idempotent demoRbC9 demoRbC9Loaded 1 1
      (by decide) (by decide) (Or.inl (by decide)) rfl⟩

/-- C5 demo FAT sector: entry(2) = 3, entry(3) = end-of-chain,
entry(4) = `0x0FFFFFF7` (bad cluster). -/
def demoFatC5 : List Nat :=
  [0, 0, 0, 0, 0, 0, 0, 0, 3, 0, 0, 0, 255, 255, 255, 15,
    247, 255, 255, 15] ++ List.replicate 12 0

def demoDevC5 : BlockDevice := ⟨32, 5, fun j => demoFatC5.getD j 0⟩

/-- 1 sector per cluster, 32-byte sectors, FAT at 0, data at 1. -/
def demoGeoC5 : FATGeometry := ⟨1, 32, 0, 1⟩

/-- A walker positioned on cluster `c` of the C5 image, its data sector
(absolute index `c - 1`) loaded. -/
def demoWalkerC5 (c : Nat) : ClusterWalker :=
  ⟨⟨demoDevC5, List.replicate 32 0, 32, some (c - 1, c)⟩, c, 0, demoGeoC5⟩

/-- The walker produced by `next_cluster` from cluster 2 (now on
cluster 3, first sector loaded). -/
def demoNextC5 : ClusterWalker :=
  ⟨⟨demoDevC5, List.replicate 32 0, 32, some (2, 3)⟩, 3, 0, demoGeoC5⟩

/-- C5 (code evaluated at the failing input): `next_cluster` maps
`NextClusterIndex` to a walker on the next cluster's first sector and
`EndOfChain` to the end of the walk, but a `BadCluster` FAT entry hits
the `unimplemented!()` panic — no `CorruptedChain` error exists in the
code. -/
theorem claim_C5_next_cluster_mapping :
    fatGetEntry (sectorBytes demoDevC5 32 0) 8 =
      some (.NextClusterIndex 3) ∧
    fatGetEntry (sectorBytes demoDevC5 32 0) 12 = some .EndOfChain ∧
    fatGetEntry (sectorBytes demoDevC5 32 0) 16 = some .BadCluster ∧
    (demoWalkerC5 2).nextCluster = .next demoNextC5 ∧
    demoNextC5.clusterIndex = 3 ∧
    demoNextC5.absoluteSectorIndex =
      demoGeoC5.firstDataSector + (3 - 2) * demoGeoC5.clusterSizeSectors ∧
    demoNextC5.buffer.inLoaded demoNextC5.absoluteSectorIndex ∧
    (demoWalkerC5 3).nextCluster = .endOfChain ∧
    (demoWalkerC5 4).nextCluster = .panicUnimplemented :=
  ⟨by decide, by decide, by decide, rfl, rfl, rfl,
    ⟨2, 3, rfl, by decide, by decide⟩, rfl, rfl⟩

/-- C6 demo: a device large enough that even the wrapped sector index of
"cluster 0" lies on it. -/
def demoDevC6 : BlockDevice := ⟨32, 4294967295, fun _ => 0⟩

def demoGeoC6 : FATGeometry := ⟨1, 32, 0, 0⟩

/-- The walker `open(cluster 0)` actually returns: positioned at the
wrapped absolute sector `(0 - 2) mod 2^32 = 0xFFFFFFFE`. -/
def demoWalkC6 : ClusterWalker :=
  ⟨⟨demoDevC6, List.replicate 32 0, 32, some (4294967294, 4294967295)⟩,
    0, 0, demoGeoC6⟩

/-- C6 (code evaluated at the failing input): `open` performs no
`cluster_index < 2` validation — opening cluster 0 yields a walker (no
`InvalidCluster` error exists in the code), positioned at the u32-wrapped
absolute sector `0xFFFFFFFE`. -/
theorem claim_C6_open_no_validation :
    ClusterWalker.openAt (ReadBuffer.new demoDevC6 (List.replicate 32 0) 32) 0
        demoGeoC6 = some demoWalkC6 ∧
    demoWalkC6.absoluteSectorIndex = 4294967294 :=
  ⟨rfl, rfl⟩

/-- C7 demo: an interface-conformant device whose block size (1024)
differs from the sector size (512). `byteAt` encodes the 512-byte region
an offset belongs to, so the regions are tellable apart. -/
def demoDevC7 : BlockDevice := ⟨1024, 4, fun j => j / 512 % 256⟩

def demoGeoC7 : FATGeometry := ⟨1, 512, 1, 1⟩

/-- Same geometry on a device whose block size equals the sector size. -/
def demoDevC7b : BlockDevice := ⟨512, 8, fun j => j / 512 % 256⟩

/-- C7 (code evaluated at the failing input): `read` passes the absolute
sector index as the device block index, so with `block_size = 1024` and
`sector_size = 512` it fills the buffer with the device bytes at byte
offset `first_sector * 1024` instead of the first cluster's bytes at
`first_sector * 512`; only when `block_size = sector_size` does it read
the cluster. -/
theorem claim_C7_read_sector_block_confusion :
    (FATFileSystem.read demoDevC7 demoGeoC7 2 1024).2 =
      demoDevC7.bytesFrom 1024 1024 ∧
    sectorBytes demoDevC7 512
      (demoGeoC7.firstDataSector + (2 - 2) * demoGeoC7.clusterSizeSectors) =
      demoDevC7.bytesFrom 512 512 ∧
    (FATFileSystem.read demoDevC7 demoGeoC7 2 1024).2.headD 0 = 2 ∧
    (sectorBytes demoDevC7 512
      (demoGeoC7.firstDataSector +
        (2 - 2) * demoGeoC7.clusterSizeSectors)).headD 0 = 1 ∧
    (FATFileSystem.read demoDevC7b demoGeoC7 2 512).2 =
      sectorBytes demoDevC7b 512
        (demoGeoC7.firstDataSector + (2 - 2) * demoGeoC7.clusterSizeSectors) :=
  ⟨rfl, rfl, by decide, by decide, rfl⟩

end Osc
